import Mathlib

/-!
Verification of the lance full-text-search scorer subsystem.

Shallow embedding of:
* `rust/lance-index/src/scalar/inverted/scorer.rs` — `BM25Scorer` (`new`,
  `nq`, `merge`, `query_weight`, `doc_weight`, `score`) and the free
  function `idf`;
* `python/src/indices/inverted.rs` — `PyBM25Scorer::from_json` / `to_json`
  (serde_json round-trip of the scorer) and the parameter-default logic of
  `PyInvertedIndex::fuzzy_nq`;
* `rust/lance-io/src/ffi.rs` — `JniRecordBatchIteratorAdaptor`'s schema and
  batch transformation (the `_rowid` UInt64 → Int64 conversion).

Modelling conventions:
* A Rust `HashMap<String, usize>` is modelled as an association list
  `List (String × Nat)` in unspecified entry order; `HashMap` equality
  (`PartialEq`, which is order-independent) is modelled by lookup
  extensionality (`nqsEquiv`).  The `entry(..).or_insert(0) += nq` idiom is
  `insertAdd`, `insert` (overwrite) is `insertOverwrite`.
* `usize` is modelled as `Nat`.
* `f32` values reachable here are quotients of non-negative integers, so
  they are modelled by `F32`: an exact rational for the finite case plus
  the two special values `+∞` and `NaN` produced by division by zero
  (`0/0 = NaN`, `x/0 = +∞` for `x > 0`).  Finite quotients are modelled
  exactly (real `f32` rounds; every concrete value inspected by a claim is
  exactly representable, and serde_json round-trips finite `f32` exactly
  via shortest-decimal printing, which the exact model reflects).
* The transcendental score arithmetic (`ln`) is interpreted over `ℝ`.
-/

namespace Lance

/-! ### f32 model -/

/-- Model of the `f32` values reachable in the scorer: an exact rational,
`+∞`, or `NaN` (the latter two arise from `num_tokens as f32 / num_docs as
f32` when `num_docs == 0`). -/
inductive F32 where
  | finite (q : ℚ)
  | inf
  | nan
deriving DecidableEq

/-- IEEE division of two non-negative integers cast to `f32`
(`num_tokens as f32 / num_docs as f32`): `0/0 = NaN`, `x/0 = +∞`,
otherwise finite. -/
def divNat (a b : Nat) : F32 :=
  if b = 0 then (if a = 0 then F32.nan else F32.inf)
  else F32.finite ((a : ℚ) / (b : ℚ))

/-! ### HashMap<String, usize> model: association lists -/

/-- `HashMap::get` on the entry-list model. -/
def lookupNq : List (String × Nat) → String → Option Nat
  | [], _ => none
  | (k, w) :: rest, t => if k = t then some w else lookupNq rest t

/-- `*map.entry(t).or_insert(0) += v` on the entry-list model: add `v` to
the entry for `t`, creating it (with initial value `0`) if absent. -/
def insertAdd : List (String × Nat) → String → Nat → List (String × Nat)
  | [], t, v => [(t, v)]
  | (k, w) :: rest, t, v =>
    if k = t then (k, w + v) :: rest else (k, w) :: insertAdd rest t v

/-- `map.insert(t, v)` (overwrite) on the entry-list model. -/
def insertOverwrite : List (String × Nat) → String → Nat → List (String × Nat)
  | [], t, v => [(t, v)]
  | (k, w) :: rest, t, v =>
    if k = t then (k, v) :: rest else (k, w) :: insertOverwrite rest t v

/-- The inner loop of `BM25Scorer::merge`:
`for (token, nq) in scorer.nqs.iter() { *nqs.entry(token).or_insert(0) += nq }`. -/
def addAll (acc : List (String × Nat)) (es : List (String × Nat)) :
    List (String × Nat) :=
  es.foldl (fun a p => insertAdd a p.1 p.2) acc

/-- `HashMap` equality (`PartialEq` ignores entry order): the two entry
lists define the same partial map. -/
def nqsEquiv (a b : List (String × Nat)) : Prop :=
  ∀ t, lookupNq a t = lookupNq b t

/-! ### BM25Scorer -/

/-- BM25 parameter `K1` (`pub const K1: f32 = 1.2`), interpreted over `ℝ`. -/
noncomputable def K1 : ℝ := 1.2

/-- BM25 parameter `B` (`pub const B: f32 = 0.75`), interpreted over `ℝ`. -/
noncomputable def B : ℝ := 0.75

/-- `BM25Scorer` struct: `nqs: HashMap<String, usize>`, `num_docs: usize`,
`num_tokens: usize`, `avgdl: f32`.  All four fields are stored (and all
four are serialized by the `Serialize`/`Deserialize` derives). -/
structure BM25Scorer where
  nqs : List (String × Nat)
  num_docs : Nat
  num_tokens : Nat
  avgdl : F32
deriving DecidableEq

/-- `BM25Scorer::new`: stores the inputs and computes
`avgdl = num_tokens as f32 / num_docs as f32` (no division-by-zero guard). -/
def BM25Scorer.new (nqs : List (String × Nat)) (num_docs num_tokens : Nat) :
    BM25Scorer :=
  { nqs := nqs, num_docs := num_docs, num_tokens := num_tokens,
    avgdl := divNat num_tokens num_docs }

/-- `BM25Scorer::nq`: `*self.nqs.get(token).unwrap_or(&1)`. -/
def BM25Scorer.nq (s : BM25Scorer) (token : String) : Nat :=
  (lookupNq s.nqs token).getD 1

/-- `<BM25Scorer as Scorer>::merge`: one pass over the input scorers,
accumulating `nqs` via `entry(..).or_insert(0) += nq` and summing
`num_docs` / `num_tokens`, then `Self::new` (which recomputes `avgdl`). -/
def BM25Scorer.merge (scorers : List BM25Scorer) : BM25Scorer :=
  let nqs := scorers.foldl (fun acc s => addAll acc s.nqs) []
  let num_docs := scorers.foldl (fun acc s => acc + s.num_docs) 0
  let num_tokens := scorers.foldl (fun acc s => acc + s.num_tokens) 0
  BM25Scorer.new nqs num_docs num_tokens

/-- Scorer (`PartialEq`) equality: equal maps, equal counters, identical
`avgdl` bits. -/
def BM25Scorer.eqv (a b : BM25Scorer) : Prop :=
  nqsEquiv a.nqs b.nqs ∧ a.num_docs = b.num_docs ∧
    a.num_tokens = b.num_tokens ∧ a.avgdl = b.avgdl

/-! ### Real-valued score arithmetic

The real-number interpretation is faithful to the `f32` code exactly when
`avgdl` is finite and positive (theorems below carry that hypothesis);
`F32.toReal` maps the special values to a junk value. -/

/-- Real value of a finite `F32` (junk `0` on `+∞`/`NaN`; every theorem
about score arithmetic assumes finiteness). -/
noncomputable def F32.toReal : F32 → ℝ
  | F32.finite q => (q : ℝ)
  | F32.inf => 0
  | F32.nan => 0

/-- Free function `idf(nq, num_docs)`:
`((num_docs - nq + 0.5) / (nq + 0.5) + 1.0).ln()`. -/
noncomputable def idf (nq num_docs : Nat) : ℝ :=
  Real.log (((num_docs : ℝ) - (nq : ℝ) + 0.5) / ((nq : ℝ) + 0.5) + 1)

/-- `BM25Scorer::query_weight`: `0` when `nq == 0`, else `idf(nq, num_docs)`. -/
noncomputable def BM25Scorer.query_weight (s : BM25Scorer) (token : String) : ℝ :=
  if s.nq token = 0 then 0 else idf (s.nq token) s.num_docs

/-- `BM25Scorer::doc_weight`:
`(K1 + 1) * freq / (freq + K1 * (1 - B + B * doc_tokens / avgdl))`. -/
noncomputable def BM25Scorer.doc_weight (s : BM25Scorer) (freq doc_tokens : Nat) : ℝ :=
  (K1 + 1) * (freq : ℝ) /
    ((freq : ℝ) + K1 * (1 - B + B * (doc_tokens : ℝ) / s.avgdl.toReal))

/-- `Scorer::score` (trait default): `query_weight * doc_weight`. -/
noncomputable def BM25Scorer.score (s : BM25Scorer) (token : String)
    (freq doc_tokens : Nat) : ℝ :=
  s.query_weight token * s.doc_weight freq doc_tokens

/-! ### serde_json model

`PyBM25Scorer::to_json` / `from_json` are `serde_json::to_string` /
`from_str` with the derived `Serialize` / `Deserialize` impls.  The text
form is modelled at the level of its JSON tree.  Numbers carry the exact
rational value of the printed decimal (serde_json prints finite floats
with shortest round-tripping decimals and integers verbatim, so finite
values survive a print/parse cycle exactly; non-finite floats are printed
as `null`, and parsing `null` as an `f32` is a deserialization error). -/

/-- JSON tree. -/
inductive Json where
  | null
  | num (q : ℚ)
  | str (s : String)
  | obj (fields : List (String × Json))

/-- serde_json serialization of an `f32` field: finite values print as
numbers, `NaN`/`±∞` print as `null`. -/
def F32.toJson : F32 → Json
  | F32.finite q => Json.num q
  | F32.inf => Json.null
  | F32.nan => Json.null

/-- Derived `Serialize` for `BM25Scorer`: an object with the four fields in
declaration order (`nqs` as a nested object). -/
def BM25Scorer.toJson (s : BM25Scorer) : Json :=
  Json.obj
    [("nqs", Json.obj (s.nqs.map fun p => (p.1, Json.num (p.2 : ℚ)))),
     ("num_docs", Json.num (s.num_docs : ℚ)),
     ("num_tokens", Json.num (s.num_tokens : ℚ)),
     ("avgdl", s.avgdl.toJson)]

/-- Deserializing a `usize` field: the value must be a non-negative
integer number; anything else (including `null`) is an error. -/
def Json.asNat : Json → Except String Nat
  | Json.num q =>
    if q.den = 1 ∧ 0 ≤ q.num then Except.ok q.num.toNat
    else Except.error "invalid value: expected usize"
  | _ => Except.error "invalid type: expected usize"

/-- Deserializing an `f32` field: any number parses (finite); `null` and
every other shape is an error (serde_json does not map `null` back to
`NaN`). -/
def Json.asF32 : Json → Except String F32
  | Json.num q => Except.ok (F32.finite q)
  | _ => Except.error "invalid type: expected f32"

/-- Deserializing `nqs: HashMap<String, usize>`: each entry's value must
parse as `usize`; entries are inserted in order (later duplicates
overwrite). -/
def parseNqs : Json → Except String (List (String × Nat))
  | Json.obj entries =>
    entries.foldlM
      (fun acc p => (Json.asNat p.2).map (fun v => insertOverwrite acc p.1 v)) []
  | _ => Except.error "invalid type: expected a map"

/-- Derived struct-field extraction: a required field must occur exactly
once (missing and duplicate known fields are errors; unknown fields are
ignored, serde's default). -/
def getField (fields : List (String × Json)) (name : String) :
    Except String Json :=
  match fields.filter (fun p => p.1 = name) with
  | [] => Except.error ("missing field " ++ name)
  | [p] => Except.ok p.2
  | _ => Except.error ("duplicate field " ++ name)

/-- Derived `Deserialize` for `BM25Scorer`: requires a JSON object carrying
all four fields; every field value comes from the input (no defaults). -/
def BM25Scorer.fromJson : Json → Except String BM25Scorer
  | Json.obj fields => do
    let nqsJ ← getField fields "nqs"
    let nqs ← parseNqs nqsJ
    let ndJ ← getField fields "num_docs"
    let num_docs ← ndJ.asNat
    let ntJ ← getField fields "num_tokens"
    let num_tokens ← ntJ.asNat
    let avJ ← getField fields "avgdl"
    let avgdl ← avJ.asF32
    Except.ok ⟨nqs, num_docs, num_tokens, avgdl⟩
  | _ => Except.error "invalid type: expected struct BM25Scorer"

/-- `PyBM25Scorer::from_json`: wraps any serde error in a `PyValueError`
whose message carries the parse failure reason. -/
def PyBM25Scorer.from_json (j : Json) : Except String BM25Scorer :=
  match BM25Scorer.fromJson j with
  | Except.ok s => Except.ok s
  | Except.error e =>
    Except.error ("Could not load BM25Scorer due to error: " ++ e)

/-! ### `PyInvertedIndex::fuzzy_nq` parameter handling -/

/-- The three `FtsSearchParams` fields the Python binding sets (the struct
lives outside the sources at hand; only these fields are read/written by
`fuzzy_nq`, the rest come from `Default`). -/
structure FtsSearchParams where
  max_expansions : Nat
  fuzziness : Option Nat
  prefix_length : Nat
deriving DecidableEq

/-- The parameter-dictionary branch of `PyInvertedIndex::fuzzy_nq`: each
argument models `params.get_item(key)` (`none` = key absent); an absent
`max_expansions` defaults to `50`, an absent `fuzziness` to `Some(0)`, an
absent `prefix_length` to `0`. -/
def buildFtsParams (max_expansions : Option Nat) (fuzziness : Option (Option Nat))
    (prefix_length : Option Nat) : FtsSearchParams :=
  { max_expansions := max_expansions.getD 50,
    fuzziness := fuzziness.getD (some 0),
    prefix_length := prefix_length.getD 0 }

/-! ### JNI Arrow stream adaptor (`lance-io/src/ffi.rs`) -/

/-- `lance_core::ROW_ID`. -/
def ROW_ID : String := "_rowid"

/-- The Arrow data types the adaptor distinguishes. -/
inductive DataType where
  | uint64
  | int64
  | other (tag : String)
deriving DecidableEq

/-- `arrow_schema::Field`: name, data type, nullability. -/
structure ArrowField where
  name : String
  dtype : DataType
  nullable : Bool
deriving DecidableEq

/-- An Arrow column: a `UInt64Array` (values are `u64`, i.e. `< 2^64`),
an `Int64Array`, or an opaque column of some other type. -/
inductive Column where
  | uint64 (vs : List Nat)
  | int64 (vs : List Int)
  | other (tag : String)
deriving DecidableEq

/-- `RecordBatch`: a schema and one column per field. -/
structure RecordBatch where
  schema : List ArrowField
  columns : List Column
deriving DecidableEq

/-- Rust `u64 as i64`: reduce modulo `2^64` and reinterpret the bits as a
two's-complement signed 64-bit integer. -/
def toI64 (v : Nat) : Int :=
  if v % 2 ^ 64 < 2 ^ 63 then ((v % 2 ^ 64 : Nat) : Int)
  else ((v % 2 ^ 64 : Nat) : Int) - 2 ^ 64

/-- `JniRecordBatchIteratorAdaptor::schema`, per field: a field named
`_rowid` of type `UInt64` becomes `Int64` with the same name and
nullability; everything else is kept as is. -/
def jniConvertField (f : ArrowField) : ArrowField :=
  if f.name = ROW_ID then
    match f.dtype with
    | DataType.uint64 => ⟨f.name, DataType.int64, f.nullable⟩
    | _ => f
  else f

/-- `JniRecordBatchIteratorAdaptor::schema`. -/
def jniSchema (schema : List ArrowField) : List ArrowField :=
  schema.map jniConvertField

/-- The batch transformation in `JniRecordBatchIteratorAdaptor::next`: if
the batch has a `_rowid` column, downcast it to `UInt64Array` (`unwrap`
panics — modelled `none` — if it is not one), replace it by the `as i64`
converted `Int64Array`, and rebuild the batch with the converted schema
(`self.schema()`; the adaptor is constructed with the stream's schema,
which equals the batch's schema for a well-formed stream).  A batch
without a `_rowid` column passes through untouched. -/
def jniNext (batch : RecordBatch) : Option RecordBatch :=
  match batch.schema.findIdx? (fun f => f.name == ROW_ID) with
  | some index =>
    match batch.columns[index]? with
    | some (Column.uint64 vs) =>
      some ⟨jniSchema batch.schema,
            batch.columns.set index (Column.int64 (vs.map toI64))⟩
    | _ => none
  | none => some batch

/-! ### Pointwise lemmas for the entry-list map operations -/

/-- Total occurrence sum of a token over an entry list (for lists with
`Nodup` keys — every list a `HashMap` yields — this is the looked-up value,
see `sumOf_eq_lookup`). -/
def sumOf : List (String × Nat) → String → Nat
  | [], _ => 0
  | (k, w) :: rest, t => (if k = t then w else 0) + sumOf rest t

theorem lookupNq_eq_none_of_not_mem (es : List (String × Nat)) (t : String)
    (h : t ∉ es.map Prod.fst) : lookupNq es t = none := by
  induction es with
  | nil => rfl
  | cons p rest ih =>
    obtain ⟨k, w⟩ := p
    simp only [List.map_cons, List.mem_cons, not_or] at h
    have hkt : ¬k = t := fun hh => h.1 hh.symm
    simp only [lookupNq, if_neg hkt]
    exact ih h.2

theorem sumOf_eq_zero_of_lookup_none (es : List (String × Nat)) (t : String)
    (h : lookupNq es t = none) : sumOf es t = 0 := by
  induction es with
  | nil => rfl
  | cons p rest ih =>
    obtain ⟨k, w⟩ := p
    simp only [lookupNq] at h
    by_cases hk : k = t
    · simp [hk] at h
    · simp only [sumOf, if_neg hk, zero_add]
      exact ih (by simpa [if_neg hk] using h)

theorem sumOf_eq_lookup (es : List (String × Nat))
    (h : (es.map Prod.fst).Nodup) (t : String) :
    sumOf es t = (lookupNq es t).getD 0 := by
  induction es with
  | nil => rfl
  | cons p rest ih =>
    obtain ⟨k, w⟩ := p
    simp only [List.map_cons, List.nodup_cons] at h
    by_cases hk : k = t
    · subst hk
      have hn : lookupNq rest k = none :=
        lookupNq_eq_none_of_not_mem rest k h.1
      simp [sumOf, lookupNq, sumOf_eq_zero_of_lookup_none rest k hn]
    · simp only [sumOf, if_neg hk, zero_add, lookupNq, if_neg hk]
      exact ih h.2

theorem lookupNq_insertAdd (acc : List (String × Nat)) (t : String) (v : Nat)
    (t' : String) :
    lookupNq (insertAdd acc t v) t' =
      if t' = t then some ((lookupNq acc t).getD 0 + v) else lookupNq acc t' := by
  induction acc with
  | nil =>
    by_cases h : t' = t
    · simp [insertAdd, lookupNq, h]
    · have h' : ¬t = t' := fun hh => h hh.symm
      simp [insertAdd, lookupNq, h, h']
  | cons p rest ih =>
    obtain ⟨k, w⟩ := p
    by_cases hk : k = t
    · subst hk
      by_cases h : t' = k
      · subst h
        simp [insertAdd, lookupNq]
      · have h' : ¬k = t' := fun hh => h hh.symm
        simp [insertAdd, lookupNq, h, h']
    · by_cases h : t' = k
      · subst h
        simp [insertAdd, lookupNq, hk, ih]
      · have h' : ¬k = t' := fun hh => h hh.symm
        simp [insertAdd, lookupNq, hk, h', ih]

theorem sumOf_insertAdd (acc : List (String × Nat)) (t : String) (v : Nat)
    (t' : String) :
    sumOf (insertAdd acc t v) t' = sumOf acc t' + if t = t' then v else 0 := by
  induction acc with
  | nil => simp [insertAdd, sumOf]
  | cons p rest ih =>
    obtain ⟨k, w⟩ := p
    by_cases hk : k = t
    · subst hk
      by_cases h : k = t'
      · simp [insertAdd, sumOf, h, Nat.add_assoc, Nat.add_comm v]
      · simp [insertAdd, sumOf, h]
    · simp [insertAdd, sumOf, hk, ih, Nat.add_assoc]

theorem lookupNq_addAll (es : List (String × Nat)) :
    ∀ (acc : List (String × Nat)) (t : String),
    lookupNq (addAll acc es) t =
      if (lookupNq es t).isSome
      then some ((lookupNq acc t).getD 0 + sumOf es t)
      else lookupNq acc t := by
  induction es with
  | nil => intro acc t; simp [addAll, lookupNq]
  | cons p rest ih =>
    intro acc t
    obtain ⟨k, v⟩ := p
    have step : addAll acc ((k, v) :: rest) = addAll (insertAdd acc k v) rest := rfl
    rw [step, ih]
    by_cases hk : k = t
    · subst hk
      simp only [lookupNq, if_pos rfl, Option.isSome_some, if_true, sumOf]
      rw [lookupNq_insertAdd]
      simp only [if_pos rfl, Option.getD_some]
      by_cases hr : (lookupNq rest k).isSome
      · simp [hr, Nat.add_assoc]
      · have hnone : lookupNq rest k = none := by
          cases h : lookupNq rest k
          · rfl
          · rw [h] at hr; simp at hr
        simp [hr, sumOf_eq_zero_of_lookup_none rest k hnone]
    · have htk : ¬t = k := fun hh => hk hh.symm
      have hlk : lookupNq ((k, v) :: rest) t = lookupNq rest t := by
        simp [lookupNq, hk]
      have hia : lookupNq (insertAdd acc k v) t = lookupNq acc t := by
        rw [lookupNq_insertAdd]; simp [htk]
      have hso : sumOf ((k, v) :: rest) t = sumOf rest t := by
        simp [sumOf, hk]
      rw [hlk, hia, hso]

theorem sumOf_addAll (es : List (String × Nat)) :
    ∀ (acc : List (String × Nat)) (t : String),
    sumOf (addAll acc es) t = sumOf acc t + sumOf es t := by
  induction es with
  | nil => intro acc t; simp [addAll, sumOf]
  | cons p rest ih =>
    intro acc t
    obtain ⟨k, v⟩ := p
    have step : addAll acc ((k, v) :: rest) = addAll (insertAdd acc k v) rest := rfl
    rw [step, ih, sumOf_insertAdd]
    simp [sumOf, Nat.add_assoc, Nat.add_comm (sumOf rest t)]

/-- The nqs accumulation loop of `merge`, pointwise. -/
theorem lookupNq_mergeFold (l : List BM25Scorer) :
    ∀ (acc : List (String × Nat)) (t : String),
    lookupNq (l.foldl (fun acc s => addAll acc s.nqs) acc) t =
      if l.any (fun s => (lookupNq s.nqs t).isSome)
      then some ((lookupNq acc t).getD 0 +
        (l.map (fun s => sumOf s.nqs t)).sum)
      else lookupNq acc t := by
  induction l with
  | nil => intro acc t; simp
  | cons s rest ih =>
    intro acc t
    have step : ((s :: rest).foldl (fun acc s => addAll acc s.nqs) acc) =
        rest.foldl (fun acc s => addAll acc s.nqs) (addAll acc s.nqs) := rfl
    rw [step, ih, lookupNq_addAll]
    by_cases hr : rest.any (fun s => (lookupNq s.nqs t).isSome)
    · by_cases hs : (lookupNq s.nqs t).isSome
      · simp [hs, hr, Nat.add_assoc]
      · have hz : sumOf s.nqs t = 0 :=
          sumOf_eq_zero_of_lookup_none _ _ (Option.not_isSome_iff_eq_none.mp hs)
        simp [hs, hr, hz]
    · have hzr : (rest.map (fun s => sumOf s.nqs t)).sum = 0 := by
        apply List.sum_eq_zero
        intro x hx
        simp only [List.mem_map] at hx
        obtain ⟨s', hs', rfl⟩ := hx
        have : ¬(lookupNq s'.nqs t).isSome := by
          intro hsome
          exact hr (List.any_eq_true.mpr ⟨s', hs', hsome⟩)
        exact sumOf_eq_zero_of_lookup_none _ _ (Option.not_isSome_iff_eq_none.mp this)
      by_cases hs : (lookupNq s.nqs t).isSome
      · simp [hs, hr, hzr]
      · simp [hs, hr]

theorem sumOf_mergeFold (l : List BM25Scorer) :
    ∀ (acc : List (String × Nat)) (t : String),
    sumOf (l.foldl (fun acc s => addAll acc s.nqs) acc) t =
      sumOf acc t + (l.map (fun s => sumOf s.nqs t)).sum := by
  induction l with
  | nil => intro acc t; simp
  | cons s rest ih =>
    intro acc t
    have step : ((s :: rest).foldl (fun acc s => addAll acc s.nqs) acc) =
        rest.foldl (fun acc s => addAll acc s.nqs) (addAll acc s.nqs) := rfl
    rw [step, ih, sumOf_addAll]
    simp [Nat.add_assoc]

theorem foldl_add_eq {α : Type} (f : α → Nat) (l : List α) :
    ∀ init : Nat, l.foldl (fun a s => a + f s) init = init + (l.map f).sum := by
  induction l with
  | nil => intro init; simp
  | cons x rest ih => intro init; simp [ih, Nat.add_assoc]

/-- Pointwise characterization of `merge`'s nqs map. -/
theorem lookupNq_merge (l : List BM25Scorer) (t : String) :
    lookupNq (BM25Scorer.merge l).nqs t =
      if l.any (fun s => (lookupNq s.nqs t).isSome)
      then some ((l.map (fun s => sumOf s.nqs t)).sum)
      else none := by
  have : (BM25Scorer.merge l).nqs = l.foldl (fun acc s => addAll acc s.nqs) [] := rfl
  rw [this, lookupNq_mergeFold]
  simp [lookupNq]

theorem sumOf_merge (l : List BM25Scorer) (t : String) :
    sumOf (BM25Scorer.merge l).nqs t = (l.map (fun s => sumOf s.nqs t)).sum := by
  have : (BM25Scorer.merge l).nqs = l.foldl (fun acc s => addAll acc s.nqs) [] := rfl
  rw [this, sumOf_mergeFold]
  simp [sumOf]

theorem merge_num_docs (l : List BM25Scorer) :
    (BM25Scorer.merge l).num_docs = (l.map BM25Scorer.num_docs).sum := by
  have : (BM25Scorer.merge l).num_docs =
      l.foldl (fun a s => a + s.num_docs) 0 := rfl
  rw [this, foldl_add_eq]
  simp

theorem merge_num_tokens (l : List BM25Scorer) :
    (BM25Scorer.merge l).num_tokens = (l.map BM25Scorer.num_tokens).sum := by
  have : (BM25Scorer.merge l).num_tokens =
      l.foldl (fun a s => a + s.num_tokens) 0 := rfl
  rw [this, foldl_add_eq]
  simp

theorem merge_avgdl (l : List BM25Scorer) :
    (BM25Scorer.merge l).avgdl =
      divNat (BM25Scorer.merge l).num_tokens (BM25Scorer.merge l).num_docs := rfl

/-- `nqsEquiv` is decidable: it suffices to compare lookups on the two key
lists (any other token is absent from both maps). -/
instance nqsEquiv.instDecidable (a b : List (String × Nat)) :
    Decidable (nqsEquiv a b) :=
  decidable_of_iff
    (∀ t ∈ a.map Prod.fst ++ b.map Prod.fst, lookupNq a t = lookupNq b t) (by
    constructor
    · intro h t
      by_cases ha : t ∈ a.map Prod.fst
      · exact h t (List.mem_append.mpr (Or.inl ha))
      · by_cases hb : t ∈ b.map Prod.fst
        · exact h t (List.mem_append.mpr (Or.inr hb))
        · rw [lookupNq_eq_none_of_not_mem a t ha,
            lookupNq_eq_none_of_not_mem b t hb]
    · intro h t _
      exact h t)

instance BM25Scorer.eqv.instDecidable (a b : BM25Scorer) :
    Decidable (a.eqv b) := by
  unfold BM25Scorer.eqv
  infer_instance

theorem any_perm {α : Type} {l l' : List α} (h : l.Perm l') (p : α → Bool) :
    l.any p = l'.any p := by
  by_cases hx : l.any p = true
  · rw [hx]
    symm
    rw [List.any_eq_true] at hx ⊢
    obtain ⟨x, hm, hp⟩ := hx
    exact ⟨x, h.mem_iff.mp hm, hp⟩
  · have hy : ¬l'.any p = true := by
      intro hy
      apply hx
      rw [List.any_eq_true] at hy ⊢
      obtain ⟨x, hm, hp⟩ := hy
      exact ⟨x, h.mem_iff.mpr hm, hp⟩
    rw [Bool.not_eq_true] at hx hy
    rw [hx, hy]

theorem merge_isSome_any (l : List BM25Scorer) (t : String) :
    (lookupNq (BM25Scorer.merge l).nqs t).isSome =
      l.any (fun s => (lookupNq s.nqs t).isSome) := by
  rw [lookupNq_merge]
  by_cases h : l.any (fun s => (lookupNq s.nqs t).isSome) <;> simp [h]

/-! ### Claim theorems -/

/-- Example scorer `A = {nqs: {"x": 2}, num_docs: 5, num_tokens: 50}`. -/
def sA : BM25Scorer := BM25Scorer.new [("x", 2)] 5 50

/-- Example scorer `B = {nqs: {"x": 1, "y": 3}, num_docs: 5, num_tokens: 60}`. -/
def sB : BM25Scorer := BM25Scorer.new [("x", 1), ("y", 3)] 5 60

/-- C3: `BM25Scorer::merge` is commutative and associative: merging any
permutation of the inputs, and hierarchically merging two halves then
merging the partial results, yield a scorer with identical `nqs`
(`HashMap` equality), `num_docs`, `num_tokens`, and `avgdl` bits. -/
theorem merge_comm_assoc (l l' : List BM25Scorer) (h : l.Perm l')
    (l1 l2 : List BM25Scorer) :
    (BM25Scorer.merge l).eqv (BM25Scorer.merge l') ∧
    (BM25Scorer.merge (l1 ++ l2)).eqv
      (BM25Scorer.merge [BM25Scorer.merge l1, BM25Scorer.merge l2]) := by
  constructor
  · refine ⟨?_, ?_, ?_, ?_⟩
    · intro t
      rw [lookupNq_merge, lookupNq_merge, any_perm h, (h.map _).sum_eq]
    · rw [merge_num_docs, merge_num_docs, (h.map _).sum_eq]
    · rw [merge_num_tokens, merge_num_tokens, (h.map _).sum_eq]
    · rw [merge_avgdl, merge_avgdl, merge_num_docs, merge_num_docs,
        merge_num_tokens, merge_num_tokens, (h.map _).sum_eq, (h.map _).sum_eq]
  · have hnd : (BM25Scorer.merge (l1 ++ l2)).num_docs =
        (BM25Scorer.merge [BM25Scorer.merge l1, BM25Scorer.merge l2]).num_docs := by
      rw [merge_num_docs, merge_num_docs, List.map_append, List.sum_append]
      simp [merge_num_docs]
    have hnt : (BM25Scorer.merge (l1 ++ l2)).num_tokens =
        (BM25Scorer.merge [BM25Scorer.merge l1, BM25Scorer.merge l2]).num_tokens := by
      rw [merge_num_tokens, merge_num_tokens, List.map_append, List.sum_append]
      simp [merge_num_tokens]
    refine ⟨?_, hnd, hnt, ?_⟩
    · intro t
      rw [lookupNq_merge, lookupNq_merge]
      simp only [List.any_cons, List.any_nil, List.map_cons, List.map_nil,
        List.sum_cons, List.sum_nil, merge_isSome_any, sumOf_merge,
        List.any_append, List.map_append, List.sum_append]
      simp [Nat.add_zero, Bool.or_false]
    · rw [merge_avgdl, merge_avgdl, hnd, hnt]

/-- Witness for C3 at concrete inputs. -/
theorem merge_comm_assoc_witness :
    List.Perm [sA, sB] [sB, sA] ∧
    (BM25Scorer.merge [sA, sB]).eqv (BM25Scorer.merge [sB, sA]) ∧
    (BM25Scorer.merge ([sA] ++ [sB])).eqv
      (BM25Scorer.merge [BM25Scorer.merge [sA], BM25Scorer.merge [sB]]) :=
  ⟨List.Perm.swap sB sA [],
   (merge_comm_assoc [sA, sB] [sB, sA] (List.Perm.swap sB sA []) [sA] [sB]).1,
   (merge_comm_assoc [sA, sB] [sB, sA] (List.Perm.swap sB sA []) [sA] [sB]).2⟩

/-- C4: `merge` maps each token to the sum of its `nq` over all inputs
(inputs lacking the token contribute 0, and a token appears in the result
iff some input has it), sums `num_docs` and `num_tokens`, and recomputes
`avgdl` from those sums.  The `Nodup` hypothesis is the `HashMap` key
invariant every input scorer satisfies. -/
theorem merge_spec (l : List BM25Scorer)
    (h : ∀ s ∈ l, (s.nqs.map Prod.fst).Nodup) (t : String) :
    lookupNq (BM25Scorer.merge l).nqs t =
      (if l.any (fun s => (lookupNq s.nqs t).isSome)
       then some ((l.map (fun s => (lookupNq s.nqs t).getD 0)).sum)
       else none) ∧
    (BM25Scorer.merge l).num_docs = (l.map BM25Scorer.num_docs).sum ∧
    (BM25Scorer.merge l).num_tokens = (l.map BM25Scorer.num_tokens).sum ∧
    (BM25Scorer.merge l).avgdl =
      divNat (l.map BM25Scorer.num_tokens).sum (l.map BM25Scorer.num_docs).sum := by
  refine ⟨?_, merge_num_docs l, merge_num_tokens l, ?_⟩
  · rw [lookupNq_merge]
    have hmap : l.map (fun s => sumOf s.nqs t) =
        l.map (fun s => (lookupNq s.nqs t).getD 0) :=
      List.map_congr_left (fun s hs => sumOf_eq_lookup s.nqs (h s hs) t)
    rw [hmap]
  · rw [merge_avgdl, merge_num_docs, merge_num_tokens]

/-- Witness for C4: the spec's concrete example, including
`merge A B = {nqs: {"x": 3, "y": 3}, num_docs: 10, num_tokens: 110,
avgdl: 11.0}`. -/
theorem merge_spec_witness :
    (∀ s ∈ [sA, sB], (s.nqs.map Prod.fst).Nodup) ∧
    lookupNq (BM25Scorer.merge [sA, sB]).nqs "x" =
      (if [sA, sB].any (fun s => (lookupNq s.nqs "x").isSome)
       then some (([sA, sB].map (fun s => (lookupNq s.nqs "x").getD 0)).sum)
       else none) ∧
    lookupNq (BM25Scorer.merge [sA, sB]).nqs "x" = some 3 ∧
    lookupNq (BM25Scorer.merge [sA, sB]).nqs "y" = some 3 ∧
    (BM25Scorer.merge [sA, sB]).num_docs = 10 ∧
    (BM25Scorer.merge [sA, sB]).num_tokens = 110 ∧
    (BM25Scorer.merge [sA, sB]).avgdl = F32.finite 11 :=
  ⟨by decide, (merge_spec [sA, sB] (by decide) "x").1,
   by decide, by decide, by decide, by decide,
   by norm_num [BM25Scorer.merge, BM25Scorer.new, divNat, sA, sB]⟩

/-- C2 (amended): `avgdl` equals `num_tokens / num_docs` (as the `f32`
division, `divNat`) for every scorer produced by `new`, and for every
scorer produced by `merge` it is recomputed from the merged counters. -/
theorem avgdl_recomputed_new_merge :
    (∀ (nqs : List (String × Nat)) (nd nt : Nat),
      (BM25Scorer.new nqs nd nt).avgdl = divNat nt nd) ∧
    (∀ l : List BM25Scorer,
      (BM25Scorer.merge l).avgdl =
        divNat (BM25Scorer.merge l).num_tokens (BM25Scorer.merge l).num_docs) :=
  ⟨fun _ _ _ => rfl, fun _ => rfl⟩

/-- C2 counterexample: deserialization reads `avgdl` from the stored field
(the derive deserializes all four fields), so a serialized form whose
`avgdl` drifted from `num_tokens / num_docs` deserializes verbatim:
`{"nqs":{},"num_docs":1,"num_tokens":5,"avgdl":99.0}` yields a scorer with
`avgdl = 99 ≠ 5 = num_tokens / num_docs`. -/
theorem fromJson_avgdl_drift :
    PyBM25Scorer.from_json (Json.obj
      [("nqs", Json.obj []), ("num_docs", Json.num 1),
       ("num_tokens", Json.num 5), ("avgdl", Json.num 99)]) =
      Except.ok ⟨[], 1, 5, F32.finite 99⟩ ∧
    F32.finite 99 ≠ divNat 5 1 := by
  constructor
  · rfl
  · simp only [divNat, F32.finite.injEq]
    norm_num

theorem asNat_natCast (n : Nat) :
    Json.asNat (Json.num (n : ℚ)) = Except.ok n := by
  simp [Json.asNat, Rat.den_natCast, Rat.num_natCast]

theorem insertOverwrite_of_lookup_none (acc : List (String × Nat))
    (t : String) (v : Nat) (h : lookupNq acc t = none) :
    insertOverwrite acc t v = acc ++ [(t, v)] := by
  induction acc with
  | nil => rfl
  | cons p rest ih =>
    obtain ⟨k, w⟩ := p
    simp only [lookupNq] at h
    by_cases hk : k = t
    · simp [hk] at h
    · simp only [insertOverwrite, if_neg hk, List.cons_append]
      rw [ih (by simpa [if_neg hk] using h)]

theorem parseNqs_fold (l : List (String × Nat)) :
    ∀ acc : List (String × Nat), ((acc ++ l).map Prod.fst).Nodup →
    (l.map (fun p => (p.1, Json.num (p.2 : ℚ)))).foldlM
      (fun acc p => (Json.asNat p.2).map (fun v => insertOverwrite acc p.1 v))
      acc = Except.ok (acc ++ l) := by
  induction l with
  | nil => intro acc _; simp; rfl
  | cons p rest ih =>
    intro acc h
    obtain ⟨k, v⟩ := p
    have hmaps := h
    rw [List.map_append, List.nodup_append] at hmaps
    obtain ⟨_, _, hdisj⟩ := hmaps
    have hkmem : k ∈ (((k, v) :: rest).map Prod.fst) := by simp
    have hnotmem : k ∉ acc.map Prod.fst := fun hmem => hdisj hmem hkmem
    have hnone : lookupNq acc k = none :=
      lookupNq_eq_none_of_not_mem acc k hnotmem
    rw [List.map_cons, List.foldlM_cons, asNat_natCast]
    simp only [Except.map, insertOverwrite_of_lookup_none acc k v hnone]
    have hassoc : acc ++ (k, v) :: rest = (acc ++ [(k, v)]) ++ rest := by simp
    rw [hassoc] at h ⊢
    exact ih (acc ++ [(k, v)]) h

theorem parseNqs_toJson (l : List (String × Nat))
    (h : (l.map Prod.fst).Nodup) :
    parseNqs (Json.obj (l.map fun p => (p.1, Json.num (p.2 : ℚ)))) =
      Except.ok l := by
  simpa [parseNqs] using parseNqs_fold l [] (by simpa using h)

/-- `fromJson` on an object with exactly the four serialized fields in
declaration order reduces to parsing the four values. -/
theorem fromJson_canonical (nqsJ ndJ ntJ avJ : Json) :
    BM25Scorer.fromJson (Json.obj
      [("nqs", nqsJ), ("num_docs", ndJ), ("num_tokens", ntJ),
       ("avgdl", avJ)]) =
      (do
        let nqs ← parseNqs nqsJ
        let num_docs ← ndJ.asNat
        let num_tokens ← ntJ.asNat
        let avgdl ← avJ.asF32
        Except.ok ⟨nqs, num_docs, num_tokens, avgdl⟩) := rfl

/-- C1 (amended): serialize→deserialize recovers every field exactly for
every scorer whose `avgdl` is finite — in particular any scorer built by
`new`/`merge` with `num_docs > 0`, with arbitrary `nqs` (including the
empty map).  (For `num_docs = 0` the division is *not* guarded: `avgdl`
becomes `NaN`/`+∞`, serializes as `null`, and deserialization fails — see
the counterexample.)  The `Nodup` hypothesis is the `HashMap` key
invariant. -/
theorem roundtrip_finite_avgdl (s : BM25Scorer) (q : ℚ)
    (hk : (s.nqs.map Prod.fst).Nodup) (ha : s.avgdl = F32.finite q) :
    BM25Scorer.fromJson (BM25Scorer.toJson s) = Except.ok s := by
  have h1 : BM25Scorer.toJson s = Json.obj
      [("nqs", Json.obj (s.nqs.map fun p => (p.1, Json.num (p.2 : ℚ)))),
       ("num_docs", Json.num (s.num_docs : ℚ)),
       ("num_tokens", Json.num (s.num_tokens : ℚ)),
       ("avgdl", Json.num q)] := by
    rw [BM25Scorer.toJson, ha]
    rfl
  rw [h1, fromJson_canonical, parseNqs_toJson s.nqs hk, asNat_natCast,
    asNat_natCast]
  show Except.ok ⟨s.nqs, s.num_docs, s.num_tokens, F32.finite q⟩ =
    Except.ok s
  rw [← ha]

/-- C1 counterexample: a scorer constructed with `num_docs = 0` (empty
`nqs`) has `avgdl = 0/0 = NaN` — the division is not guarded — which
serializes as `null`, and deserializing `null` as `f32` fails, so the
round-trip does not return a scorer at all. -/
theorem roundtrip_zero_docs_fails :
    (BM25Scorer.new [] 0 0).avgdl = F32.nan ∧
    (PyBM25Scorer.from_json
      (BM25Scorer.toJson (BM25Scorer.new [] 0 0))).isOk = false :=
  ⟨rfl, rfl⟩

/-- Witness for C1 (amended) at a concrete scorer. -/
theorem roundtrip_finite_avgdl_witness :
    ((sA.nqs.map Prod.fst).Nodup ∧ sA.avgdl = F32.finite 10) ∧
    BM25Scorer.fromJson (BM25Scorer.toJson sA) = Except.ok sA :=
  ⟨⟨by decide, by norm_num [sA, BM25Scorer.new, divNat]⟩,
   roundtrip_finite_avgdl sA 10 (by decide)
     (by norm_num [sA, BM25Scorer.new, divNat])⟩

/-- C5: `query_weight` is `idf(nq, num_docs)` with the stored per-token
count when present, the smoothing default `nq = 1` when absent (never an
error), and `0` when the stored count is `0`; `idf` is exactly
`ln((N - nq + 0.5)/(nq + 0.5) + 1)`. -/
theorem query_weight_spec (s : BM25Scorer) (t : String) :
    (lookupNq s.nqs t = none → s.query_weight t = idf 1 s.num_docs) ∧
    (∀ v, lookupNq s.nqs t = some v → v ≠ 0 →
      s.query_weight t = idf v s.num_docs) ∧
    (lookupNq s.nqs t = some 0 → s.query_weight t = 0) ∧
    (∀ nq N : Nat, idf nq N =
      Real.log (((N : ℝ) - (nq : ℝ) + 0.5) / ((nq : ℝ) + 0.5) + 1)) := by
  refine ⟨?_, ?_, ?_, fun _ _ => rfl⟩
  · intro h
    unfold BM25Scorer.query_weight BM25Scorer.nq
    rw [h]
    simp
  · intro v hv hne
    unfold BM25Scorer.query_weight BM25Scorer.nq
    rw [hv]
    simp [hne]
  · intro h
    unfold BM25Scorer.query_weight BM25Scorer.nq
    rw [h]
    simp

/-- Witness for C5: an absent token, a present non-zero token, and a
present zero-count token on a concrete scorer. -/
theorem query_weight_spec_witness :
    (lookupNq (BM25Scorer.new [("a", 2), ("z", 0)] 10 100).nqs "b" = none ∧
      (BM25Scorer.new [("a", 2), ("z", 0)] 10 100).query_weight "b" =
        idf 1 (BM25Scorer.new [("a", 2), ("z", 0)] 10 100).num_docs) ∧
    (lookupNq (BM25Scorer.new [("a", 2), ("z", 0)] 10 100).nqs "a" = some 2 ∧
      (BM25Scorer.new [("a", 2), ("z", 0)] 10 100).query_weight "a" =
        idf 2 (BM25Scorer.new [("a", 2), ("z", 0)] 10 100).num_docs) ∧
    (lookupNq (BM25Scorer.new [("a", 2), ("z", 0)] 10 100).nqs "z" = some 0 ∧
      (BM25Scorer.new [("a", 2), ("z", 0)] 10 100).query_weight "z" = 0) :=
  ⟨⟨by decide, (query_weight_spec _ "b").1 (by decide)⟩,
   ⟨by decide, (query_weight_spec _ "a").2.1 2 (by decide) (by decide)⟩,
   ⟨by decide, (query_weight_spec _ "z").2.2.1 (by decide)⟩⟩

/-- C7: `idf(nq, N)` is strictly decreasing in `nq` for fixed `N`
(interpreted over `ℝ`; note `(N - nq + 0.5)/(nq + 0.5) + 1 =
(N + 1)/(nq + 0.5)` is positive for every `nq`, so the logarithm is
defined throughout). -/
theorem idf_strict_anti (N nq1 nq2 : Nat) (h : nq1 < nq2) :
    idf nq2 N < idf nq1 N := by
  have key : ∀ nq : Nat, ((N : ℝ) - (nq : ℝ) + 0.5) / ((nq : ℝ) + 0.5) + 1 =
      ((N : ℝ) + 1) / ((nq : ℝ) + 0.5) := by
    intro nq
    have hnz : ((nq : ℝ) + 0.5) ≠ 0 := by positivity
    field_simp
    ring
  unfold idf
  rw [key, key]
  have hc : (nq1 : ℝ) < (nq2 : ℝ) := by exact_mod_cast h
  apply Real.log_lt_log
  · positivity
  · exact div_lt_div_of_pos_left (by positivity) (by positivity)
      (by linarith)

/-- Witness for C7. -/
theorem idf_strict_anti_witness : (0 : Nat) < 1 ∧ idf 1 5 < idf 0 5 :=
  ⟨by decide, idf_strict_anti 5 0 1 (by decide)⟩

theorem idf_nonneg (nq N : Nat) (h : nq ≤ N) : 0 ≤ idf nq N := by
  unfold idf
  apply Real.log_nonneg
  have hle : (nq : ℝ) ≤ (N : ℝ) := by exact_mod_cast h
  have hnum : 0 ≤ (N : ℝ) - (nq : ℝ) + 0.5 := by linarith
  have hden : (0 : ℝ) < (nq : ℝ) + 0.5 := by positivity
  have := div_nonneg hnum hden.le
  linarith

theorem query_weight_nonneg (s : BM25Scorer) (t : String)
    (h : s.nq t ≤ s.num_docs) : 0 ≤ s.query_weight t := by
  unfold BM25Scorer.query_weight
  by_cases h0 : s.nq t = 0
  · rw [if_pos h0]
  · rw [if_neg h0]
    exact idf_nonneg _ _ h

theorem bm25_dw_mono (c : ℝ) (hc : 0 < c) (x1 x2 : ℝ) (h0 : 0 ≤ x1)
    (h : x1 ≤ x2) : (K1 + 1) * x1 / (x1 + c) ≤ (K1 + 1) * x2 / (x2 + c) := by
  have hK : (0 : ℝ) < K1 + 1 := by unfold K1; norm_num
  have hd1 : 0 < x1 + c := by linarith
  have hd2 : 0 < x2 + c := by linarith
  rw [div_le_div_iff₀ hd1 hd2]
  nlinarith [mul_nonneg (mul_nonneg hK.le hc.le) (sub_nonneg.mpr h)]

/-- C6 (amended): `score` is non-negative and monotonically non-decreasing
in `freq`, provided the scorer's stored `avgdl` is finite and positive
and the token's `nq` does not exceed `num_docs` (the counterexample shows
`nq > num_docs` makes the score negative; statistics produced from an
actual corpus satisfy both conditions). -/
theorem score_nonneg_mono (s : BM25Scorer) (t : String) (q : ℚ)
    (f1 f2 dt : Nat) (hav : s.avgdl = F32.finite q) (hq : 0 < q)
    (hnq : s.nq t ≤ s.num_docs) :
    0 ≤ s.score t f1 dt ∧ (f1 ≤ f2 → s.score t f1 dt ≤ s.score t f2 dt) := by
  have hqw : 0 ≤ s.query_weight t := query_weight_nonneg s t hnq
  have hqr : (0 : ℝ) < (q : ℝ) := by exact_mod_cast hq
  have hC : 0 < K1 * (1 - B + B * (dt : ℝ) / s.avgdl.toReal) := by
    rw [hav]
    show 0 < K1 * (1 - B + B * (dt : ℝ) / (q : ℝ))
    have hx : 0 ≤ B * (dt : ℝ) / (q : ℝ) := by
      apply div_nonneg _ hqr.le
      have : (0 : ℝ) ≤ (dt : ℝ) := Nat.cast_nonneg dt
      unfold B
      nlinarith
    unfold K1 B at hx ⊢
    nlinarith
  constructor
  · apply mul_nonneg hqw
    unfold BM25Scorer.doc_weight
    apply div_nonneg
    · have hf : (0 : ℝ) ≤ (f1 : ℝ) := Nat.cast_nonneg _
      have hK : (0 : ℝ) < K1 + 1 := by unfold K1; norm_num
      nlinarith
    · have hf : (0 : ℝ) ≤ (f1 : ℝ) := Nat.cast_nonneg _
      linarith
  · intro hle
    unfold BM25Scorer.score
    apply mul_le_mul_of_nonneg_left _ hqw
    unfold BM25Scorer.doc_weight
    exact bm25_dw_mono _ hC _ _ (Nat.cast_nonneg f1) (by exact_mod_cast hle)

/-- C6 counterexample: on the scorer `new {"a": 5} num_docs=2
num_tokens=10` — whose per-token count exceeds `num_docs` — the score of
`"a"` at `freq = 1, doc_tokens = 5` is `ln(6/11) * 1 < 0`. -/
theorem score_neg_cex :
    (BM25Scorer.new [("a", 5)] 2 10).score "a" 1 5 < 0 := by
  have havg : (BM25Scorer.new [("a", 5)] 2 10).avgdl.toReal = 5 := by
    show (divNat 10 2).toReal = 5
    norm_num [divNat, F32.toReal]
  have hnq : (BM25Scorer.new [("a", 5)] 2 10).nq "a" = 5 := by decide
  have hqw : (BM25Scorer.new [("a", 5)] 2 10).query_weight "a" =
      Real.log (6 / 11) := by
    unfold BM25Scorer.query_weight
    rw [hnq]
    norm_num [idf, BM25Scorer.new]
  have hdw : (BM25Scorer.new [("a", 5)] 2 10).doc_weight 1 5 = 1 := by
    unfold BM25Scorer.doc_weight
    rw [havg]
    norm_num [K1, B]
  unfold BM25Scorer.score
  rw [hqw, hdw, mul_one]
  exact Real.log_neg (by norm_num) (by norm_num)

/-- Witness for C6 (amended) at a concrete scorer. -/
theorem score_nonneg_mono_witness :
    ((BM25Scorer.new [("a", 1)] 2 10).avgdl = F32.finite 5 ∧ (0 : ℚ) < 5 ∧
      (BM25Scorer.new [("a", 1)] 2 10).nq "a" ≤
        (BM25Scorer.new [("a", 1)] 2 10).num_docs ∧ (1 : Nat) ≤ 2) ∧
    0 ≤ (BM25Scorer.new [("a", 1)] 2 10).score "a" 1 5 ∧
    (BM25Scorer.new [("a", 1)] 2 10).score "a" 1 5 ≤
      (BM25Scorer.new [("a", 1)] 2 10).score "a" 2 5 :=
  ⟨⟨by norm_num [BM25Scorer.new, divNat], by norm_num, by decide, by decide⟩,
   (score_nonneg_mono _ "a" 5 1 2 5 (by norm_num [BM25Scorer.new, divNat])
     (by norm_num) (by decide)).1,
   (score_nonneg_mono _ "a" 5 1 2 5 (by norm_num [BM25Scorer.new, divNat])
     (by norm_num) (by decide)).2 (by decide)⟩

theorem bind_ok_inv {α β : Type} {x : Except String α} {f : α → Except String β}
    {b : β} (h : (x >>= f) = Except.ok b) :
    ∃ a, x = Except.ok a ∧ f a = Except.ok b := by
  cases x with
  | ok a => exact ⟨a, rfl, h⟩
  | error e => simp [Bind.bind, Except.bind] at h

/-- C8: deserialization never silently substitutes defaults — success
requires the input to be an object in which each of the four struct fields
was found — and every parse failure is reported as an error carrying the
underlying reason (the model is a total function into `Except`, i.e. it
never panics). -/
theorem fromJson_no_defaults (j : Json) :
    (∀ s : BM25Scorer, PyBM25Scorer.from_json j = Except.ok s →
      ∃ fields, j = Json.obj fields ∧
        (∃ v, getField fields "nqs" = Except.ok v) ∧
        (∃ v, getField fields "num_docs" = Except.ok v) ∧
        (∃ v, getField fields "num_tokens" = Except.ok v) ∧
        (∃ v, getField fields "avgdl" = Except.ok v)) ∧
    (∀ e, BM25Scorer.fromJson j = Except.error e →
      PyBM25Scorer.from_json j =
        Except.error ("Could not load BM25Scorer due to error: " ++ e)) := by
  constructor
  · intro s h
    have h' : ∃ s', BM25Scorer.fromJson j = Except.ok s' := by
      unfold PyBM25Scorer.from_json at h
      cases hfj : BM25Scorer.fromJson j with
      | ok s' => exact ⟨s', rfl⟩
      | error e => rw [hfj] at h; simp at h
    obtain ⟨s', hfj⟩ := h'
    cases j with
    | obj fields =>
      simp only [BM25Scorer.fromJson] at hfj
      obtain ⟨nqsJ, hg1, hfj⟩ := bind_ok_inv hfj
      obtain ⟨nqs, _, hfj⟩ := bind_ok_inv hfj
      obtain ⟨ndJ, hg2, hfj⟩ := bind_ok_inv hfj
      obtain ⟨nd, _, hfj⟩ := bind_ok_inv hfj
      obtain ⟨ntJ, hg3, hfj⟩ := bind_ok_inv hfj
      obtain ⟨nt, _, hfj⟩ := bind_ok_inv hfj
      obtain ⟨avJ, hg4, hfj⟩ := bind_ok_inv hfj
      exact ⟨fields, rfl, ⟨nqsJ, hg1⟩, ⟨ndJ, hg2⟩, ⟨ntJ, hg3⟩, ⟨avJ, hg4⟩⟩
    | null => simp [BM25Scorer.fromJson] at hfj
    | num q => simp [BM25Scorer.fromJson] at hfj
    | str s2 => simp [BM25Scorer.fromJson] at hfj
  · intro e he
    unfold PyBM25Scorer.from_json
    rw [he]

/-- Witness for C8: a well-formed input (every field present) succeeds and
exposes all four fields; a malformed input fails with the wrapped parse
reason. -/
theorem fromJson_no_defaults_witness :
    (PyBM25Scorer.from_json (BM25Scorer.toJson sA) = Except.ok sA ∧
      ∃ fields, BM25Scorer.toJson sA = Json.obj fields ∧
        (∃ v, getField fields "nqs" = Except.ok v) ∧
        (∃ v, getField fields "num_docs" = Except.ok v) ∧
        (∃ v, getField fields "num_tokens" = Except.ok v) ∧
        (∃ v, getField fields "avgdl" = Except.ok v)) ∧
    (BM25Scorer.fromJson Json.null =
        Except.error "invalid type: expected struct BM25Scorer" ∧
      PyBM25Scorer.from_json Json.null =
        Except.error ("Could not load BM25Scorer due to error: " ++
          "invalid type: expected struct BM25Scorer")) :=
  ⟨⟨rfl, (fromJson_no_defaults (BM25Scorer.toJson sA)).1 sA rfl⟩,
   ⟨rfl, (fromJson_no_defaults Json.null).2 _ rfl⟩⟩

/-- C9: in the parameter-dictionary branch of `fuzzy_nq`, an omitted
`max_expansions` defaults to `50` and an omitted `prefix_length` defaults
to `0`, regardless of the other supplied parameters. -/
theorem fuzzy_params_defaults (me : Option Nat) (fz : Option (Option Nat))
    (pl : Option Nat) :
    (buildFtsParams none fz pl).max_expansions = 50 ∧
    (buildFtsParams me fz none).prefix_length = 0 :=
  ⟨rfl, rfl⟩

/-- C10: on a batch whose (unique) `_rowid` column is `UInt64`, the JNI
adaptor replaces that column by an `Int64` column whose values are the
`u64` values reduced mod `2^64` and reinterpreted as two's-complement
(values at or above `2^63` come out negative), leaves every other column
untouched, and the output schema differs from the input schema only in the
`_rowid` field's data type (same name and nullability). -/
theorem jni_rowid_conversion (batch : RecordBatch) (i : Nat) (f : ArrowField)
    (vs : List Nat)
    (hf : batch.schema.findIdx? (fun g => g.name == ROW_ID) = some i)
    (hfield : batch.schema[i]? = some f)
    (hname : f.name = ROW_ID)
    (hdtype : f.dtype = DataType.uint64)
    (hcol : batch.columns[i]? = some (Column.uint64 vs))
    (huniq : ∀ j g, batch.schema[j]? = some g → g.name = ROW_ID → j = i) :
    ∃ out, jniNext batch = some out ∧
      out.columns[i]? = some (Column.int64 (vs.map toI64)) ∧
      (∀ j, j ≠ i → out.columns[j]? = batch.columns[j]?) ∧
      out.schema[i]? = some ⟨f.name, DataType.int64, f.nullable⟩ ∧
      (∀ j, j ≠ i → out.schema[j]? = batch.schema[j]?) ∧
      (∀ v : Nat,
        toI64 v % (2 ^ 64 : Int) = (v : Int) % 2 ^ 64 ∧
        -(2 ^ 63) ≤ toI64 v ∧ toI64 v < 2 ^ 63 ∧
        (2 ^ 63 ≤ v % 2 ^ 64 → toI64 v < 0)) := by
  have hi : i < batch.columns.length := by
    by_contra hlt
    push_neg at hlt
    rw [List.getElem?_eq_none hlt] at hcol
    simp at hcol
  refine ⟨⟨jniSchema batch.schema,
    batch.columns.set i (Column.int64 (vs.map toI64))⟩, ?_, ?_, ?_, ?_, ?_, ?_⟩
  · unfold jniNext
    rw [hf]
    show (match batch.columns[i]? with
      | some (Column.uint64 vs) =>
        some (RecordBatch.mk (jniSchema batch.schema)
          (batch.columns.set i (Column.int64 (vs.map toI64))))
      | _ => none) = _
    rw [hcol]
  · exact List.getElem?_set_self hi
  · intro j hj
    exact List.getElem?_set_ne (fun hh => hj hh.symm)
  · show (jniSchema batch.schema)[i]? = _
    unfold jniSchema
    rw [List.getElem?_map, hfield]
    show some (jniConvertField f) = _
    unfold jniConvertField
    rw [if_pos hname, hdtype]
  · intro j hj
    show (jniSchema batch.schema)[j]? = _
    unfold jniSchema
    rw [List.getElem?_map]
    cases hg : batch.schema[j]? with
    | none => rfl
    | some g =>
      have hgname : ¬g.name = ROW_ID := fun hn => hj (huniq j g hg hn)
      show some (jniConvertField g) = some g
      unfold jniConvertField
      rw [if_neg hgname]
  · intro v
    have hpow : (2 : Int) ^ 64 = 18446744073709551616 := by norm_num
    have hpow63 : (2 : Int) ^ 63 = 9223372036854775808 := by norm_num
    have hnpow : (2 : Nat) ^ 64 = 18446744073709551616 := by norm_num
    have hnpow63 : (2 : Nat) ^ 63 = 9223372036854775808 := by norm_num
    have hmod : v % 2 ^ 64 < 2 ^ 64 := Nat.mod_lt v (by norm_num)
    unfold toI64
    rw [hpow, hpow63, hnpow, hnpow63] at *
    split <;>
      refine ⟨?_, ?_, ?_, ?_⟩ <;> omega

/-- Witness for C10 on a concrete two-column batch whose `_rowid` column
holds `[1, 2^63]`. -/
theorem jni_rowid_conversion_witness :
    ((RecordBatch.mk [⟨"_rowid", DataType.uint64, false⟩,
        ⟨"text", DataType.other "utf8", true⟩]
        [Column.uint64 [1, 9223372036854775808],
         Column.other "payload"]).schema.findIdx?
      (fun g => g.name == ROW_ID) = some 0 ∧
      (∀ j g,
        (RecordBatch.mk [⟨"_rowid", DataType.uint64, false⟩,
          ⟨"text", DataType.other "utf8", true⟩]
          [Column.uint64 [1, 9223372036854775808],
           Column.other "payload"]).schema[j]? = some g →
        g.name = ROW_ID → j = 0)) ∧
    (∃ out, jniNext (RecordBatch.mk [⟨"_rowid", DataType.uint64, false⟩,
        ⟨"text", DataType.other "utf8", true⟩]
        [Column.uint64 [1, 9223372036854775808],
         Column.other "payload"]) = some out ∧
      out.columns[0]? =
        some (Column.int64 ([1, 9223372036854775808].map toI64)) ∧
      (∀ j, j ≠ 0 → out.columns[j]? =
        (RecordBatch.mk [⟨"_rowid", DataType.uint64, false⟩,
          ⟨"text", DataType.other "utf8", true⟩]
          [Column.uint64 [1, 9223372036854775808],
           Column.other "payload"]).columns[j]?) ∧
      out.schema[0]? = some ⟨"_rowid", DataType.int64, false⟩ ∧
      (∀ j, j ≠ 0 → out.schema[j]? =
        (RecordBatch.mk [⟨"_rowid", DataType.uint64, false⟩,
          ⟨"text", DataType.other "utf8", true⟩]
          [Column.uint64 [1, 9223372036854775808],
           Column.other "payload"]).schema[j]?) ∧
      (∀ v : Nat,
        toI64 v % (2 ^ 64 : Int) = (v : Int) % 2 ^ 64 ∧
        -(2 ^ 63) ≤ toI64 v ∧ toI64 v < 2 ^ 63 ∧
        (2 ^ 63 ≤ v % 2 ^ 64 → toI64 v < 0))) :=
  ⟨⟨by decide, by
      intro j g hj hn
      match j with
      | 0 => rfl
      | 1 =>
        simp only [List.getElem?_cons_succ, List.getElem?_cons_zero,
          Option.some.injEq] at hj
        rw [← hj] at hn
        simp [ROW_ID] at hn
      | (n + 2) =>
        simp only [List.getElem?_cons_succ, List.getElem?_nil] at hj
        cases hj⟩,
   jni_rowid_conversion _ 0 ⟨"_rowid", DataType.uint64, false⟩
     [1, 9223372036854775808] (by decide) (by decide) (by decide) (by decide)
     (by decide)
     (by
      intro j g hj hn
      match j with
      | 0 => rfl
      | 1 =>
        simp only [List.getElem?_cons_succ, List.getElem?_cons_zero,
          Option.some.injEq] at hj
        rw [← hj] at hn
        simp [ROW_ID] at hn
      | (n + 2) =>
        simp only [List.getElem?_cons_succ, List.getElem?_nil] at hj
        cases hj)⟩

end Lance
